import Mathlib

/-!
Shallow embedding of the `lpp` linear-problem parser (files `extractors.py`,
`converters.py`, `lpIO.py`, with the pipeline sequencing of `lpp.py`'s `main`).

Modelling conventions:
* Python strings are Lean `String`s; character-level processing works on `List Char`.
* Python's `re`-based scanners are embedded as deterministic recursive scanners that
  implement exactly the concrete regular expressions of the source
  (`termRe`, `<=|=|>=`, the keyword patterns and the natural-constraint pattern).
* Numeric values are `Int`: every literal the parser accepts is an optionally signed
  run of decimal digits, and Python floats are exact on such values in the ranges of
  interest, so `float` casts are value-preserving.
* Python exceptions (including `IndexError` on a bad subscript) become an `Except PyErr`
  result; the distinct `raise` sites of the source map to distinct `PyErr` constructors.
* `numpy` `reshape`/`squeeze` calls only change shape metadata, never the stored
  values; vectors are therefore embedded as flat `List Int` and matrices as
  `List (List Int)`, with `transpose` made explicit.
* Python `dict`s (used with insertion-order iteration) are association lists:
  assignment updates an existing key in place or appends a fresh key at the end.
-/

namespace LPP

/-- Error outcomes of the Python code: one constructor per distinct `raise` site,
plus the runtime errors Python itself raises (`IndexError` on a bad subscript,
`ValueError` from `float`, `UnboundLocalError`). -/
inductive PyErr where
  | nonLinear (expression : String) (term : String)
  | malformedConstraint (lineNo : Nat) (text : String)
  | emptyLeftSide (lineNo : Nat)
  | emptyRightSide (lineNo : Nat)
  | malformedNatural (lineNo : Nat) (text : String)
  | missingDirection
  | missingKeyword (what : String)
  | indexError
  | valueError
  | unboundLocal
deriving DecidableEq

/-- Python's `\s` class: `[ \t\n\r\f\v]` (the inputs here are ASCII). -/
def isSpace (c : Char) : Bool :=
  c = ' ' || c = '\t' || c = '\n' || c = '\r' || c = '\x0b' || c = '\x0c'

/-- Python's `\d` on ASCII input. -/
def isDigit (c : Char) : Bool :=
  '0' ≤ c && c ≤ '9'

/-- Python's `\w` on ASCII input: `[A-Za-z0-9_]`. -/
def isWordChar (c : Char) : Bool :=
  isDigit c || ('a' ≤ c && c ≤ 'z') || ('A' ≤ c && c ≤ 'Z') || c = '_'

/-- ASCII lower-casing, as `str.lower()` does on the inputs in scope. -/
def lowerCh (c : Char) : Char :=
  if 'A' ≤ c && c ≤ 'Z' then Char.ofNat (c.toNat + 32) else c

/-- `str.lower()`. -/
def lowerStr (s : String) : String :=
  ⟨s.data.map lowerCh⟩

/-- `re.sub('\s+', '', expression)`: removal of every whitespace character. -/
def removeSpaces (s : String) : List Char :=
  s.data.filter (fun c => !isSpace c)

/-- Longest run of decimal digits at the front (`\d*`, greedy). -/
def takeDigits : List Char → List Char × List Char
  | [] => ([], [])
  | c :: cs =>
    if isDigit c then
      let p := takeDigits cs
      (c :: p.1, p.2)
    else ([], c :: cs)

theorem takeDigits_len (l : List Char) :
    (takeDigits l).1.length + (takeDigits l).2.length = l.length := by
  induction l with
  | nil => simp [takeDigits]
  | cons c cs ih =>
    by_cases h : isDigit c = true <;> simp [takeDigits, h, ih] <;> omega

/-- One term of `termRe`: the three named groups
`(?P<sign>[+-]?)(?P<coefficient>\d*)(?P<variable_name>[xX]\d+)`
(the `\s*` parts of the pattern are vacuous because the caller has already removed
all whitespace). -/
structure Term where
  sign : String
  coeff : String
  var : String
deriving DecidableEq

/-- `''.join(term)`, the term as the source prints it in error messages. -/
def Term.joined (t : Term) : String :=
  t.sign ++ t.coeff ++ t.var

/-- The optional sign group `[+-]?` (greedy): one sign character if present. -/
def takeSign : List Char → List Char × List Char
  | [] => ([], [])
  | c :: rest => if c = '+' || c = '-' then ([c], rest) else ([], c :: rest)

theorem takeSign_len (l : List Char) : (takeSign l).2.length ≤ l.length := by
  rcases l with _ | ⟨c, rest⟩
  · simp [takeSign]
  · by_cases h : (c = '+' || c = '-') = true <;> simp [takeSign, h]

/-- The mandatory group `[xX]\d+`: an `x`/`X` followed by at least one digit. -/
def matchVarAt : List Char → Option (List Char × List Char)
  | [] => none
  | v :: r =>
    if v = 'x' || v = 'X' then
      match takeDigits r with
      | (d :: ds, r2) => some (v :: d :: ds, r2)
      | ([], _) => none
    else none

theorem matchVarAt_shrink (l w r : List Char) (h : matchVarAt l = some (w, r)) :
    r.length < l.length := by
  rcases l with _ | ⟨v, rest⟩
  · simp [matchVarAt] at h
  · unfold matchVarAt at h
    by_cases hv : (v = 'x' || v = 'X') = true <;> simp only [hv] at h
    · rcases h2 : takeDigits rest with ⟨dd, r2⟩
      rcases dd with _ | ⟨d, ds⟩ <;> rw [h2] at h <;> simp at h
      have e2 := takeDigits_len rest
      rw [h2] at e2
      rcases h with ⟨_, hr⟩
      subst hr
      simp at e2 ⊢
      omega
    · simp at h

/-- Attempt to match `termRe` at the current position of a whitespace-free string.
The regex needs no backtracking here: when the optional sign or the greedy digit run
is followed by a failure of `[xX]\d+`, every shorter choice fails as well, because
the character it would hand back is never `x`/`X`. -/
def matchTermAt (cs : List Char) : Option (Term × List Char) :=
  (matchVarAt (takeDigits (takeSign cs).2).2).map
    (fun p => (⟨⟨(takeSign cs).1⟩, ⟨(takeDigits (takeSign cs).2).1⟩, ⟨p.1⟩⟩, p.2))

theorem matchTermAt_shrink (cs r : List Char) (t : Term)
    (h : matchTermAt cs = some (t, r)) : r.length < cs.length := by
  unfold matchTermAt at h
  rcases h2 : matchVarAt (takeDigits (takeSign cs).2).2 with _ | ⟨w, r2⟩ <;>
      rw [h2] at h <;> simp at h
  rcases h with ⟨-, hr⟩
  subst hr
  have e1 := matchVarAt_shrink _ _ _ h2
  have e2 := takeDigits_len (takeSign cs).2
  have e3 := takeSign_len cs
  omega

/-- Fuel-driven scanner core for `findTerms`.  One unit of fuel is spent per
step and each step consumes at least one input character (`matchTermAt_shrink`),
so `fuel = input length` never runs dry.  (Structural recursion on the fuel keeps
the scanner definitionally computable.) -/
def findTermsF : Nat → List Char → List Term
  | 0, _ => []
  | _, [] => []
  | fuel + 1, c :: cs =>
    match matchTermAt (c :: cs) with
    | some (t, rest) => t :: findTermsF fuel rest
    | none => findTermsF fuel cs

/-- `termRe.findall(clean)`: scan left to right, emitting each non-overlapping
match and advancing one character past positions where no match starts. -/
def findTerms (l : List Char) : List Term :=
  findTermsF l.length l

/-! ### Python dictionaries with insertion order -/

/-- A Python `dict` keyed by strings: an association list in insertion order.
Assignment to an existing key updates it in place; a fresh key is appended. -/
abbrev Dict := List (String × Int)

/-- `d[k] = v` on a Python dict. -/
def dictInsert (d : Dict) (k : String) (v : Int) : Dict :=
  if d.any (fun p => p.1 = k) then
    d.map (fun p => if p.1 = k then (k, v) else p)
  else d ++ [(k, v)]

/-- `dict(zip(keys, [v for i in keys]))`. -/
def dictInit (keys : List String) (v : Int) : Dict :=
  keys.foldl (fun d k => dictInsert d k v) []

/-- `list(d.values())` (insertion order). -/
def dictValues (d : Dict) : List Int :=
  d.map (fun p => p.2)

/-- `list(d.keys())` (insertion order). -/
def dictKeys (d : Dict) : List String :=
  d.map (fun p => p.1)

/-! ### coefficientsExtractor -/

/-- Value of a digit string. -/
def natOfDigits (l : List Char) : Nat :=
  l.foldl (fun n c => 10 * n + (c.toNat - '0'.toNat)) 0

/-- `float(term[0] + (term[1] or '1'))`: the signed value of one term.  The sign
group is `''`/`'+'`/`'-'` and the coefficient group a digit run, so the float is
exact and embeds as an `Int`. -/
def termValue (t : Term) : Int :=
  let mag : Int := if t.coeff = "" then 1 else (natOfDigits t.coeff.data : Int)
  if t.sign = "-" then -mag else mag

/-- The `for term in terms` loop of `coefficientsExtractor` (extractors.py lines
43-59): a later term whose sign group is empty and which differs from `terms[0]`
(tuple comparison, exactly as Python's `term != terms[0]`) raises the non-linear
error; otherwise the term's value is assigned to its variable's dict slot. -/
def coeffLoop (clean : String) (t0 : Term) : List Term → Dict → Except PyErr Dict
  | [], d => .ok d
  | t :: ts, d =>
    if t ≠ t0 ∧ t.sign = "" then .error (.nonLinear clean t.joined)
    else coeffLoop clean t0 ts (dictInsert d t.var (termValue t))

/-- `coefficientsExtractor` up to (but not including) taking `.values()`:
whitespace removal, `termRe.findall`, dict initialised to 0 on `vars`, then the
term loop. -/
def coeffDict (expression : String) (vars : List String) : Except PyErr Dict :=
  let clean := removeSpaces expression
  let terms := findTerms clean
  let init := dictInit vars 0
  match terms with
  | [] => .ok init
  | t0 :: _ => coeffLoop ⟨clean⟩ t0 terms init

/-- `coefficientsExtractor(expression, vars)` (extractors.py lines 23-64). -/
def coefficientsExtractor (expression : String) (vars : List String) :
    Except PyErr (List Int) :=
  (coeffDict expression vars).map dictValues

/-! ### constraintsExtractor -/

/-- `re.sub('\n+', '\n', s)`: a newline directly followed by another newline is
dropped, which collapses every newline run to a single newline. -/
def collapseNewlines : List Char → List Char
  | [] => []
  | [c] => [c]
  | c1 :: c2 :: r =>
    if c1 = '\n' ∧ c2 = '\n' then collapseNewlines (c2 :: r)
    else c1 :: collapseNewlines (c2 :: r)

/-- `s.split('\n')`. -/
def splitNl : List Char → List (List Char)
  | [] => [[]]
  | '\n' :: r => [] :: splitNl r
  | c :: r =>
    match splitNl r with
    | s :: ss => (c :: s) :: ss
    | [] => [[c]]

/-- The in-place normalisation the extractors apply to their section before
splitting: collapse newline runs, then drop one leading newline.  (On an empty
collapsed string Python instead raises `IndexError` at the `[0]` subscript; the
extractors below model that case separately.) -/
def mutSection (s : String) : String :=
  match collapseNewlines s.data with
  | [] => ⟨[]⟩
  | c :: rest => if c = '\n' then ⟨rest⟩ else ⟨c :: rest⟩

/-- `re.findall('<=|=|>=', line)`: alternatives tried left to right at each
position, non-overlapping. -/
def findRels : List Char → List String
  | '<' :: '=' :: r => "<=" :: findRels r
  | '>' :: '=' :: r => ">=" :: findRels r
  | '=' :: r => "=" :: findRels r
  | _ :: r => findRels r
  | [] => []

/-- `re.split('<=|=|>=', line)`. -/
def splitRels : List Char → List (List Char)
  | '<' :: '=' :: r => [] :: splitRels r
  | '>' :: '=' :: r => [] :: splitRels r
  | '=' :: r => [] :: splitRels r
  | c :: r =>
    match splitRels r with
    | s :: ss => (c :: s) :: ss
    | [] => [[c]]
  | [] => [[]]

/-- Python `float(s)` restricted to the literals this parser can feed it: optional
surrounding whitespace, an optional sign, then a non-empty digit run (exact as an
`Int`); anything else is `ValueError`.  Fractional/exponent literals never arise
in the verified claims. -/
def floatParse (s : String) : Except PyErr Int :=
  match takeSign (((s.data.dropWhile isSpace).reverse.dropWhile isSpace).reverse) with
  | (_, []) => .error .valueError
  | (sgn, d :: ds) =>
    if (d :: ds).all isDigit then
      .ok (if sgn = ['-'] then -(natOfDigits (d :: ds) : Int) else (natOfDigits (d :: ds) : Int))
    else .error .valueError

/-- `<=` ↦ −1, `=` ↦ 0, `>=` ↦ 1 (the `if`/`elif` chain at extractors.py 152-158;
no branch taken means nothing is appended). -/
def relCode (s : String) : Option Int :=
  if s = "<=" then some (-1) else if s = "=" then some 0 else if s = ">=" then some 1 else none

/-- The accumulators `A`, `EqinTemp`, `b` of `constraintsExtractor`. -/
structure CState where
  A : List (List Int)
  eqTemp : List (List String)
  bs : List Int
deriving DecidableEq

/-- The body of `constraintsExtractor`'s per-line loop (extractors.py 102-149):
count relations, reject unless exactly one, split, parse the left side, reject an
all-zero row, append the row, reject an empty right side, parse and append the
right side. -/
def processConstraintLine (vars : List String) (lineNo : Nat) (line : String)
    (st : CState) : Except PyErr CState :=
  let rels := findRels line.data
  let st1 : CState := { st with eqTemp := st.eqTemp ++ [rels] }
  if rels.length ≠ 1 then .error (.malformedConstraint lineNo line)
  else
    let parts := splitRels line.data
    match coefficientsExtractor ⟨parts.headD []⟩ vars with
    | .error e => .error e
    | .ok coeffs =>
      if coeffs.all (fun x => x = 0) then .error (.emptyLeftSide lineNo)
      else
        let st2 : CState := { st1 with A := st1.A ++ [coeffs] }
        let rhs : List Char := parts.getD 1 []
        if rhs = [] then .error (.emptyRightSide lineNo)
        else
          match floatParse ⟨rhs⟩ with
          | .error e => .error e
          | .ok bv => .ok { st2 with bs := st2.bs ++ [bv] }

/-- The `for expression in expressions[:-1]` loop with its 1-based counter. -/
def constraintsLoop (vars : List String) : Nat → List String → CState → Except PyErr CState
  | _, [], st => .ok st
  | n, l :: ls, st =>
    match processConstraintLine vars (n + 1) l st with
    | .ok st2 => constraintsLoop vars (n + 1) ls st2
    | .error e => .error e

/-- The final `EqinTemp` → `Eqin` mapping. -/
def eqinOf (eqTemp : List (List String)) : List Int :=
  eqTemp.filterMap (fun eq =>
    match eq with
    | op :: _ => relCode op
    | [] => none)

/-- `constraintsExtractor(problem, vars)` (extractors.py 66-160).  The first
component of the result is the segment list after the call: the function mutates
`problem[1]` in place (lines 88-91) before parsing, so the caller's list changes.
`Eqin` and `b` are returned flat (the `(m,1)` reshape is shape metadata only). -/
def constraintsExtractor (problem : List String) (vars : List String) :
    List String × Except PyErr (List (List Int) × List Int × List Int) :=
  match problem.get? 1 with
  | none => (problem, .error .indexError)
  | some s1 =>
    match collapseNewlines s1.data with
    | [] => (problem.set 1 ⟨[]⟩, .error .indexError)
    | c :: rest =>
      let norm : List Char := if c = '\n' then rest else c :: rest
      let problem2 := problem.set 1 ⟨norm⟩
      let body := ((splitNl norm).map (fun l => (⟨l⟩ : String))).dropLast
      match constraintsLoop vars 0 body ⟨[], [], []⟩ with
      | .error e => (problem2, .error e)
      | .ok st => (problem2, .ok (st.A, eqinOf st.eqTemp, st.bs))

/-! ### naturalConstraintsExtractor -/

/-- `\s*` (greedy; no backtracking is ever needed against the following groups,
since `\s` is disjoint from `\w` and from the relation alternatives). -/
def dropSpaces (l : List Char) : List Char :=
  l.dropWhile (fun c => isSpace c)

/-- Greedy `\w*`. -/
def takeWord (l : List Char) : List Char × List Char :=
  (l.takeWhile (fun c => isWordChar c), l.dropWhile (fun c => isWordChar c))

/-- The relation group `(<=|>=|free)` (case-insensitive) preceded by its `\s*`,
alternatives in pattern order.  Returns the matched text. -/
def tryRelAt (l : List Char) : Option String :=
  match dropSpaces l with
  | '<' :: '=' :: _ => some "<="
  | '>' :: '=' :: _ => some ">="
  | a :: b :: c :: d :: _ =>
    if lowerCh a = 'f' ∧ lowerCh b = 'r' ∧ lowerCh c = 'e' ∧ lowerCh d = 'e' then
      some ⟨[a, b, c, d]⟩
    else none
  | _ => none

/-- Backtracking of the greedy `\w*` group: try the longest word prefix first and
hand characters back one at a time until `\s*(<=|>=|free)` matches the remainder.
`wRev` is the candidate group (reversed), `rest` the remaining input. -/
def trySplits : List Char → List Char → Option (String × String)
  | wRev, rest =>
    match tryRelAt rest with
    | some g2 => some (⟨wRev.reverse⟩, g2)
    | none =>
      match wRev with
      | [] => none
      | c :: wr => trySplits wr (c :: rest)

/-- Attempt to match `\s*(\w*)\s*(<=|>=|free)` at the current position, returning
the two groups.  The leading `\s*` is taken greedily; backtracking it cannot help
because a shorter take leaves a whitespace character where `\w*` would then have
to stop, which coincides with the `\w* = ''` case already tried. -/
def natMatchAt (l : List Char) : Option (String × String) :=
  let r0 := dropSpaces l
  let w := takeWord r0
  trySplits w.1.reverse w.2

/-- First position (left to right) where the natural-constraint pattern matches. -/
def natFirstMatch : List Char → Option (String × String)
  | [] => natMatchAt []
  | c :: r =>
    match natMatchAt (c :: r) with
    | some g => some g
    | none => natFirstMatch r

/-- `re.findall('\s*(\w*)\s*(<=|>=|free).*', line, re.IGNORECASE)`.  The trailing
`.*` consumes the rest of the line (the scanned lines contain no newline), so the
scan can never produce a second match: `findall` returns zero or one group pair. -/
def findNat (l : List Char) : List (String × String) :=
  match natFirstMatch l with
  | some g => [g]
  | none => []

/-- The `if constraint[0][0].lower() in vars` block of the per-line body
(extractors.py 212-220): nature determination and dict assignment for a known
variable, identity for an unknown one.  The final `else` is unreachable (the
pattern only produces `<=`, `>=` or case-variants of `free`); in Python it would
surface as `UnboundLocalError` on `nature`. -/
def natStep (vars : List String) (g : String × String) (d : Dict) :
    Except PyErr Dict :=
  if vars.contains (lowerStr g.1) then
    if g.2 = "<=" then .ok (dictInsert d (lowerStr g.1) (-1))
    else if g.2 = ">=" then .ok (dictInsert d (lowerStr g.1) 1)
    else if lowerStr g.2 = "free" then .ok (dictInsert d (lowerStr g.1) 0)
    else .error .unboundLocal
  else .ok d

/-- Per-line body of `naturalConstraintsExtractor` (extractors.py 202-225).
Python subscripts `constraint[0]` *before* the `len(constraint) != 1` test, so a
line with no match raises `IndexError` there, not the malformed-constraint
exception. -/
def processNatLine (vars : List String) (lineNo : Nat) (line : String) (d : Dict) :
    Except PyErr Dict :=
  match findNat line.data with
  | [] => .error .indexError
  | g :: rest =>
    match natStep vars g d with
    | .error e => .error e
    | .ok d2 =>
      if (g :: rest).length ≠ 1 then .error (.malformedNatural lineNo line)
      else .ok d2

/-- The `for expression in expressions[:-1]` loop with its 1-based counter. -/
def natLoop (vars : List String) : Nat → List String → Dict → Except PyErr Dict
  | _, [], d => .ok d
  | n, l :: ls, d =>
    match processNatLine vars (n + 1) l d with
    | .ok d2 => natLoop vars (n + 1) ls d2
    | .error e => .error e

/-- `naturalConstraintsExtractor(problem, vars, hasNaturalConstraints)`
(extractors.py 162-228).  As with `constraintsExtractor`, the first component is
the segment list after the call: when the natural-constraint section is parsed,
`problem[2]` is normalised in place. -/
def naturalConstraintsExtractor (problem : List String) (vars : List String)
    (hasNaturalConstraints : Bool) : List String × Except PyErr (List Int) :=
  let d0 := dictInit vars 1
  if !hasNaturalConstraints then (problem, .ok (dictValues d0))
  else
    match problem.get? 2 with
    | none => (problem, .error .indexError)
    | some s2 =>
      match collapseNewlines s2.data with
      | [] => (problem.set 2 ⟨[]⟩, .error .indexError)
      | c :: rest =>
        let norm : List Char := if c = '\n' then rest else c :: rest
        let problem2 := problem.set 2 ⟨norm⟩
        let body := ((splitNl norm).map (fun l => (⟨l⟩ : String))).dropLast
        match natLoop vars 0 body d0 with
        | .error e => (problem2, .error e)
        | .ok d => (problem2, .ok (dictValues d))

/-! ### MinMaxExtractor and cVectorExctactor -/

/-- Case-insensitive "the pattern (given lower-case) is a prefix of the input". -/
def startsWithCI : List Char → List Char → Bool
  | [], _ => true
  | _ :: _, [] => false
  | p :: ps, c :: cs => lowerCh c = p && startsWithCI ps cs

/-- `re.search(pat, s, re.IGNORECASE)` for a plain-text pattern. -/
def hasSubstrCI (pat : List Char) : List Char → Bool
  | [] => startsWithCI pat []
  | c :: r => startsWithCI pat (c :: r) || hasSubstrCI pat r

/-- `MinMaxExtractor(problem)` (extractors.py 252-267). -/
def MinMaxExtractor (problem : List String) : Except PyErr Int :=
  match problem.get? 0 with
  | none => .error .indexError
  | some s0 =>
    if hasSubstrCI "max".data s0.data then .ok 1
    else if hasSubstrCI "min".data s0.data then .ok (-1)
    else .error .missingDirection

/-- `re.compile('max|min', re.IGNORECASE).split(s)`:  both alternatives are
3 characters and start with `m`, so at most one can match at a position; on a
match the scan continues after the 3 matched characters. -/
def splitMaxMin : List Char → List (List Char)
  | [] => [[]]
  | [c] => [[c]]
  | [c1, c2] => [[c1, c2]]
  | c1 :: c2 :: c3 :: r =>
    if startsWithCI "max".data (c1 :: c2 :: c3 :: r) ||
        startsWithCI "min".data (c1 :: c2 :: c3 :: r) then
      [] :: splitMaxMin r
    else
      match splitMaxMin (c2 :: c3 :: r) with
      | s :: ss => (c1 :: s) :: ss
      | [] => [[c1]]

/-- `cVectorExctactor(problem, vars)` (extractors.py 230-250; the misspelling is
the source's). -/
def cVectorExctactor (problem : List String) (vars : List String) :
    Except PyErr (List Int) :=
  match problem.get? 0 with
  | none => .error .indexError
  | some s0 =>
    match (splitMaxMin s0.data).get? 1 with
    | none => .error .indexError
    | some part1 => coefficientsExtractor ⟨part1⟩ vars

/-! ### Variable discovery -/

/-- `set.add` on an insertion-ordered list model of a Python set (the final
`sorted` makes the internal order irrelevant). -/
def setAdd (s : List String) (x : String) : List String :=
  if s.contains x then s else s ++ [x]

/-- The `for term in terms` loop of `discoverVariables` (extractors.py 289-297),
with the same non-linearity check as `coefficientsExtractor`. -/
def discoverLoop (clean : String) (t0 : Term) : List Term → List String →
    Except PyErr (List String)
  | [], acc => .ok acc
  | t :: ts, acc =>
    if t ≠ t0 ∧ t.sign = "" then .error (.nonLinear clean t.joined)
    else discoverLoop clean t0 ts (setAdd acc t.var)

/-- Processing of one expression inside `discoverVariables`. -/
def discoverExpr (varSet : List String) (expression : String) :
    Except PyErr (List String) :=
  let clean := removeSpaces expression
  let terms := findTerms clean
  match terms with
  | [] => .ok varSet
  | t0 :: _ => discoverLoop ⟨clean⟩ t0 terms varSet

/-- `discoverVariables(aList, varSet)` (extractors.py 273-297): iterate the given
iterable of expressions, tokenising each and accumulating variable names. -/
def discoverVariables (aList : List String) (varSet : List String) :
    Except PyErr (List String) :=
  match aList with
  | [] => .ok varSet
  | e :: es =>
    match discoverExpr varSet e with
    | .error err => .error err
    | .ok s2 => discoverVariables es s2

/-- Lexicographic comparison of character lists by code point — exactly how
Python compares the strings handed to `sorted`. -/
def lexLe : List Char → List Char → Bool
  | [], _ => true
  | _ :: _, [] => false
  | a :: as, b :: bs =>
    if a.toNat < b.toNat then true
    else if a.toNat = b.toNat then lexLe as bs
    else false

/-- Python string `<=`. -/
def strLe (a b : String) : Bool :=
  lexLe a.data b.data

/-- Insertion into a sorted list. -/
def insSorted (x : String) : List String → List String
  | [] => [x]
  | y :: ys => if strLe x y then x :: y :: ys else y :: insSorted x ys

/-- `sorted(varSet)`. -/
def sortStrings (l : List String) : List String :=
  l.foldr insSorted []

/-- `discoverProblemVariables(problem)` (extractors.py 299-320).  Note the source
passes `problem[0]` — a *string* — directly to `discoverVariables`, and iterating
a Python string yields its characters one by one; so the objective section is
scanned as one-character expressions (none of which can contain a variable
token), while the constraint section is split into lines first. -/
def discoverProblemVariables (problem : List String) : Except PyErr (List String) :=
  match problem.get? 0, problem.get? 1 with
  | some p0, some p1 =>
    let cChars := p0.data.map (fun ch => (⟨[ch]⟩ : String))
    let aLines := (splitNl p1.data).map (fun l => (⟨l⟩ : String))
    match discoverVariables cChars [] with
    | .error e => .error e
    | .ok s1 =>
      match discoverVariables aLines s1 with
      | .error e => .error e
      | .ok s2 => .ok (sortStrings s2)
  | _, _ => .error .indexError

/-! ### Keyword scanning (lpIO.py sanityCheck and openLP) -/

/-- A case-insensitive literal at the current position (`pat` given lower-case):
returns the matched text and the remainder. -/
def matchLitCI (pat : List Char) (l : List Char) : Option (List Char × List Char) :=
  if startsWithCI pat l then some (l.take pat.length, l.drop pat.length) else none

/-- The optional literal dot `\.?` (greedy). -/
def matchDotOpt (l : List Char) : List Char × List Char :=
  match l with
  | '.' :: r => (['.'], r)
  | _ => ([], l)

/-- The mandatory `t` of the `s.t.` keyword patterns (case-insensitive). -/
def matchTchar (l : List Char) : Option (List Char × List Char) :=
  match l with
  | [] => none
  | t :: r => if lowerCh t = 't' then some ([t], r) else none

/-- The `\s*` between `s\.?` and `t\.?`, present only in openLP's split pattern. -/
def stMid (allowSpaces : Bool) (l : List Char) : List Char :=
  if allowSpaces then dropSpaces l else l

/-- The text consumed by that `\s*`. -/
def stSp (allowSpaces : Bool) (l : List Char) : List Char :=
  if allowSpaces then l.takeWhile (fun c => isSpace c) else []

/-- `s\.?t\.?` (sanity-check pattern) or `s\.?\s*t\.?` (split pattern, when
`allowSpaces` is set), case-insensitive.  No backtracking is needed: dropping the
optional dot or shortening the greedy `\s*` always leaves a character that cannot
be `t`. -/
def matchSTat (allowSpaces : Bool) (l : List Char) : Option (List Char × List Char) :=
  match l with
  | [] => none
  | s :: r1 =>
    if lowerCh s = 's' then
      match matchTchar (stMid allowSpaces (matchDotOpt r1).2) with
      | none => none
      | some q =>
        some (s :: ((matchDotOpt r1).1 ++ stSp allowSpaces (matchDotOpt r1).2 ++
                q.1 ++ (matchDotOpt q.2).1),
              (matchDotOpt q.2).2)
    else none

/-- `subject\s*to`, case-insensitive. -/
def matchSubjectTo (l : List Char) : Option (List Char × List Char) :=
  match matchLitCI "subject".data l with
  | none => none
  | some p =>
    match matchLitCI "to".data (dropSpaces p.2) with
    | none => none
    | some q => some (p.1 ++ p.2.takeWhile (fun c => isSpace c) ++ q.1, q.2)

/-- One alternative of `max|min|s\.?t\.?|subject\s*to|with|end` at the current
position, in pattern order (the order Python tries alternatives). -/
def matchKwSanity (l : List Char) : Option (List Char × List Char) :=
  match matchLitCI "max".data l with
  | some p => some p
  | none =>
    match matchLitCI "min".data l with
    | some p => some p
    | none =>
      match matchSTat false l with
      | some p => some p
      | none =>
        match matchSubjectTo l with
        | some p => some p
        | none =>
          match matchLitCI "with".data l with
          | some p => some p
          | none => matchLitCI "end".data l

/-- One alternative of `s\.?\s*t\.?|subject\s*to|with|end` (openLP's split
pattern) at the current position. -/
def matchKwSplit (l : List Char) : Option (List Char × List Char) :=
  match matchSTat true l with
  | some p => some p
  | none =>
    match matchSubjectTo l with
    | some p => some p
    | none =>
      match matchLitCI "with".data l with
      | some p => some p
      | none => matchLitCI "end".data l

theorem startsWithCI_le (pat l : List Char) (h : startsWithCI pat l = true) :
    pat.length ≤ l.length := by
  induction pat generalizing l with
  | nil => simp
  | cons p ps ih =>
    rcases l with _ | ⟨c, cs⟩
    · simp [startsWithCI] at h
    · simp only [startsWithCI, Bool.and_eq_true] at h
      have := ih cs h.2
      simp
      omega

theorem matchLitCI_shrink (pat l : List Char) (p : List Char × List Char)
    (hne : pat ≠ []) (h : matchLitCI pat l = some p) : p.2.length < l.length := by
  obtain ⟨p1, p2⟩ := p
  unfold matchLitCI at h
  by_cases hs : startsWithCI pat l = true <;> simp [hs] at h
  have hle := startsWithCI_le pat l hs
  obtain ⟨-, hr⟩ := h
  subst hr
  have hpos : 1 ≤ pat.length := by
    rcases pat with _ | _
    · exact absurd rfl hne
    · simp
  simp [List.length_drop]
  omega

theorem matchDotOpt_le (l : List Char) : (matchDotOpt l).2.length ≤ l.length := by
  unfold matchDotOpt
  split
  · simp
  · simp

theorem dropSpaces_le (l : List Char) : (dropSpaces l).length ≤ l.length := by
  unfold dropSpaces
  induction l with
  | nil => simp
  | cons c r ih =>
    simp only [List.dropWhile_cons]
    by_cases h : isSpace c = true
    · simp only [h, if_true]
      simp only [List.length_cons]
      omega
    · simp [h]

theorem stMid_le (b : Bool) (l : List Char) : (stMid b l).length ≤ l.length := by
  unfold stMid
  rcases b with _ | _
  · simp
  · simp only [if_true]
    exact dropSpaces_le l

theorem matchTchar_shrink (l : List Char) (p : List Char × List Char)
    (h : matchTchar l = some p) : p.2.length < l.length := by
  obtain ⟨p1, p2⟩ := p
  unfold matchTchar at h
  split at h
  · exact absurd h (by simp)
  next t r =>
    split at h
    · simp at h
      obtain ⟨-, hr⟩ := h
      subst hr
      simp
    · exact absurd h (by simp)

theorem matchSTat_shrink (b : Bool) (l : List Char) (p : List Char × List Char)
    (h : matchSTat b l = some p) : p.2.length < l.length := by
  obtain ⟨p1, p2⟩ := p
  unfold matchSTat at h
  split at h
  · exact absurd h (by simp)
  next s r1 =>
    split at h
    · split at h
      · exact absurd h (by simp)
      next q hq =>
        simp at h
        obtain ⟨-, hr⟩ := h
        subst hr
        have e1 := matchTchar_shrink _ _ hq
        have e2 := stMid_le b (matchDotOpt r1).2
        have e3 := matchDotOpt_le r1
        have e4 := matchDotOpt_le q.2
        simp only [List.length_cons]
        omega
    · exact absurd h (by simp)

theorem matchSubjectTo_shrink (l : List Char) (p : List Char × List Char)
    (h : matchSubjectTo l = some p) : p.2.length < l.length := by
  obtain ⟨p1, p2⟩ := p
  unfold matchSubjectTo at h
  split at h
  · exact absurd h (by simp)
  next q h1 =>
    split at h
    · exact absurd h (by simp)
    next q2 h2 =>
      simp at h
      obtain ⟨-, hr⟩ := h
      subst hr
      have e1 := matchLitCI_shrink _ _ _ (by simp) h1
      have e2 := matchLitCI_shrink _ _ _ (by simp) h2
      have e3 : (dropSpaces q.2).length ≤ q.2.length := dropSpaces_le q.2
      show q2.2.length < l.length
      omega

theorem matchKwSanity_shrink (l : List Char) (p : List Char × List Char)
    (h : matchKwSanity l = some p) : p.2.length < l.length := by
  unfold matchKwSanity at h
  split at h
  next h1 =>
    cases h
    exact matchLitCI_shrink _ _ _ (by simp) h1
  next =>
    split at h
    next h2 =>
      cases h
      exact matchLitCI_shrink _ _ _ (by simp) h2
    next =>
      split at h
      next h3 =>
        cases h
        exact matchSTat_shrink _ _ _ h3
      next =>
        split at h
        next h4 =>
          cases h
          exact matchSubjectTo_shrink _ _ h4
        next =>
          split at h
          next h5 =>
            cases h
            exact matchLitCI_shrink _ _ _ (by simp) h5
          next =>
            exact matchLitCI_shrink _ _ _ (by simp) h

theorem matchKwSplit_shrink (l : List Char) (p : List Char × List Char)
    (h : matchKwSplit l = some p) : p.2.length < l.length := by
  unfold matchKwSplit at h
  split at h
  next h3 =>
    cases h
    exact matchSTat_shrink _ _ _ h3
  next =>
    split at h
    next h4 =>
      cases h
      exact matchSubjectTo_shrink _ _ h4
    next =>
      split at h
      next h5 =>
        cases h
        exact matchLitCI_shrink _ _ _ (by simp) h5
      next =>
        exact matchLitCI_shrink _ _ _ (by simp) h

/-- Fuel-driven scanner core for `findKeywords`; as with `findTermsF`, each step
consumes at least one character (`matchKwSanity_shrink`), so `fuel = input
length` never runs dry. -/
def findKeywordsF : Nat → List Char → List String
  | 0, _ => []
  | fuel + 1, l =>
    match matchKwSanity l with
    | some p => (⟨p.1⟩ : String) :: findKeywordsF fuel p.2
    | none =>
      match l with
      | [] => []
      | _ :: r => findKeywordsF fuel r

/-- `re.findall(keywordPattern, problem)` for the sanity-check pattern: the list
of matched keyword texts. -/
def findKeywords (l : List Char) : List String :=
  findKeywordsF l.length l

/-- Fuel-driven scanner core for `splitKeywords` (fuel as in `findKeywordsF`,
justified by `matchKwSplit_shrink`). -/
def splitKeywordsF : Nat → List Char → List (List Char)
  | 0, l => [l]
  | fuel + 1, l =>
    match matchKwSplit l with
    | some p => [] :: splitKeywordsF fuel p.2
    | none =>
      match l with
      | [] => [[]]
      | c :: r =>
        match splitKeywordsF fuel r with
        | s :: ss => (c :: s) :: ss
        | [] => [[c]]

/-- `re.compile(splitPattern).split(problem)` for openLP's split pattern. -/
def splitKeywords (l : List Char) : List (List Char) :=
  splitKeywordsF l.length l

/-- `re.match('max|min', s, re.IGNORECASE)` as a Boolean (anchored at the start). -/
def startsMaxMin (s : String) : Bool :=
  startsWithCI "max".data s.data || startsWithCI "min".data s.data

/-- `re.match('s\.?t\.?|subject\s*to', s, re.IGNORECASE)` as a Boolean. -/
def startsST (s : String) : Bool :=
  (matchSTat false s.data).isSome || (matchSubjectTo s.data).isSome

/-- `re.match('with', s, re.IGNORECASE)` as a Boolean. -/
def startsWithKw (s : String) : Bool :=
  startsWithCI "with".data s.data

/-- `re.match('end', s, re.IGNORECASE)` as a Boolean. -/
def startsEnd (s : String) : Bool :=
  startsWithCI "end".data s.data

/-- `sanityCheck(problem)` (lpIO.py 6-31).  Returns `hasNaturalConstraints`;
the distinct raises map to `missingKeyword`/`indexError`. -/
def sanityCheck (problemText : String) : Except PyErr Bool :=
  let keywords := findKeywords problemText.data
  match keywords.get? 0 with
  | none => .error .indexError
  | some k0 =>
    if startsMaxMin k0 then
      if 2 ≤ keywords.length ∧ startsST (keywords.getD 1 "") then
        if keywords.length = 4 ∧ startsWithKw (keywords.getD 2 "") then
          if startsEnd (keywords.getD 3 "") then .ok true
          else .error (.missingKeyword "end")
        else
          if keywords.length = 3 then
            if startsEnd (keywords.getD 2 "") then .ok false
            else .error (.missingKeyword "end")
          else .ok false
      else .error (.missingKeyword "s.t.")
    else .error (.missingKeyword "min/max")

/-- `openLP` (lpIO.py 33-69) minus the file I/O: sanity check, then the keyword
split, returning the first three (with natural constraints) or two segments. -/
def openLP (problemText : String) : Except PyErr (List String × Bool) :=
  match sanityCheck problemText with
  | .error e => .error e
  | .ok hasNat =>
    let segs := (splitKeywords problemText.data).map (fun l => (⟨l⟩ : String))
    if hasNat then .ok (segs.take 3, true) else .ok (segs.take 2, false)

/-! ### The dual converter (converters.py) -/

/-- `numpy.transpose` on a rectangular matrix given as rows. -/
def trL (A : List (List Int)) : List (List Int) :=
  (List.range (A.headD []).length).map (fun j => A.map (fun row => row.getD j 0))

/-- `numpy.dot(-1, v)`: entrywise negation. -/
def negL (l : List Int) : List Int :=
  l.map (fun x => -x)

/-- `primalToDual` (converters.py 3-44).  The `reshape`/`squeeze` calls on `b` and
`c` only change shape metadata, so `dual_c = b` and `dual_b = c` as flat vectors.
When `MinMax` is neither 1 nor −1, Python falls through both branches and hits an
`UnboundLocalError` at the return: modelled as `none`. -/
def primalToDual (MinMax : Int) (c : List Int) (A : List (List Int))
    (Eqin b naturalConstraints : List Int) :
    Option (Int × List Int × List (List Int) × List Int × List Int × List Int) :=
  let dualType := MinMax * -1
  let dual_c := b
  let dual_b := c
  let w := trL A
  if dualType = 1 then
    some (dualType, dual_c, w, negL naturalConstraints, dual_b, Eqin)
  else if dualType = -1 then
    some (dualType, dual_c, w, naturalConstraints, dual_b, negL Eqin)
  else none

/-- `primalToDual` applied to a previously returned tuple (re-feeding a dual model
as a primal one). -/
def primalToDualT (t : Int × List Int × List (List Int) × List Int × List Int × List Int) :
    Option (Int × List Int × List (List Int) × List Int × List Int × List Int) :=
  primalToDual t.1 t.2.1 t.2.2.1 t.2.2.2.1 t.2.2.2.2.1 t.2.2.2.2.2

/-! ### The full pipeline (main of lpp.py, with the refactored modules) -/

/-- The core parsing pipeline in the order of `lpp.py`'s `main`: segmentation,
variable discovery, direction, objective vector, constraints, natural
constraints.  The segment list mutated by `constraintsExtractor` is threaded to
the natural-constraint extractor, exactly as the shared Python list is. -/
def parseLP (text : String) :
    Except PyErr (Int × List String × List Int × List (List Int) × List Int × List Int × List Int) :=
  match openLP text with
  | .error e => .error e
  | .ok (problem, hasNat) =>
    match discoverProblemVariables problem with
    | .error e => .error e
    | .ok vars =>
      match MinMaxExtractor problem with
      | .error e => .error e
      | .ok minMax =>
        match cVectorExctactor problem vars with
        | .error e => .error e
        | .ok c =>
          match constraintsExtractor problem vars with
          | (_, .error e) => .error e
          | (problem2, .ok (A, Eqin, b)) =>
            match naturalConstraintsExtractor problem2 vars hasNat with
            | (_, .error e) => .error e
            | (_, .ok nat) => .ok (minMax, vars, c, A, Eqin, b, nat)

/-! ## Theorems about the claims -/

/-- C1: parsing `"max 2x1+3x2\ns.t.\nx1+x2<=4\nx1-x2>=1\nend"` through the full
pipeline (section segmentation, variable discovery, direction/objective/
constraint/natural-constraint extraction) yields `MinMax = 1`, canonical
variables `[x1, x2]`, `c = [2, 3]`, `A = [[1, 1], [1, -1]]`, `Eqin = [-1, 1]`,
`b = [4, 1]` and the default `naturalConstraints = [1, 1]`. -/
theorem C1_example1_pipeline :
    parseLP "max 2x1+3x2\ns.t.\nx1+x2<=4\nx1-x2>=1\nend" =
      .ok (1, ["x1", "x2"], [2, 3], [[1, 1], [1, -1]], [-1, 1], [4, 1], [1, 1]) := by
  rfl

/-- C3 (code evaluated at the failing input): on the segmented problem of
`"max x3\ns.t.\nx1<=4\nend"`, whose objective references the variable `x3` and
whose single constraint references only `x1`, `discoverProblemVariables` returns
`["x1"]`: the objective-only variable `x3` is *not* discovered, because the
source hands the objective segment to `discoverVariables` as a plain string,
which is iterated character by character. -/
theorem C3_objective_variable_lost :
    openLP "max x3\ns.t.\nx1<=4\nend" = .ok (["max x3\n", "\nx1<=4\n"], false) ∧
    discoverProblemVariables ["max x3\n", "\nx1<=4\n"] = .ok ["x1"] := by
  exact ⟨rfl, rfl⟩

/-- C6 (code evaluated at the failing input): a natural-constraint line matching
the declaration pattern zero times (here `"x1 5"`) makes
`naturalConstraintsExtractor` fail with `IndexError` — Python subscripts
`constraint[0]` before the `len(constraint) != 1` check — and not with the
malformed-natural-constraint error the claim names. -/
theorem C6_zero_match_is_IndexError :
    findNat "x1 5".data = [] ∧
    (naturalConstraintsExtractor ["", "", "\nx1 5\n"] ["x1"] true).2 =
      .error .indexError := by
  exact ⟨rfl, rfl⟩

theorem primalToDual_one (c : List Int) (A : List (List Int)) (Eqin b nat : List Int) :
    primalToDual 1 c A Eqin b nat = some (-1, b, trL A, nat, c, negL Eqin) := by
  simp [primalToDual]

theorem primalToDual_negOne (c : List Int) (A : List (List Int)) (Eqin b nat : List Int) :
    primalToDual (-1) c A Eqin b nat = some (1, b, trL A, negL nat, c, Eqin) := by
  simp [primalToDual]

/-- C2: for both admissible primal directions, `primalToDual` returns
`dualType = -MinMax`, dual objective `= b`, dual constraint matrix `= Aᵀ`, dual
rhs `= c`; for a Max primal (`dualType = -1`) the dual relation vector is the
primal natural-constraint vector unchanged and the dual natural-constraint
vector is the negated primal relation vector, and symmetrically for a Min
primal; in particular on Example 1's model it yields `dualType = -1`,
`dual_c = [4, 1]`, `w = [[1, 1], [1, -1]]`, `dualEqin = [1, 1]`,
`dual_b = [2, 3]`, `dualNaturalConstraints = [1, -1]`. -/
theorem C2_primalToDual_spec :
    (∀ (c : List Int) (A : List (List Int)) (Eqin b nat : List Int),
      primalToDual 1 c A Eqin b nat = some (-1, b, trL A, nat, c, negL Eqin) ∧
      primalToDual (-1) c A Eqin b nat = some (1, b, trL A, negL nat, c, Eqin)) ∧
    primalToDual 1 [2, 3] [[1, 1], [1, -1]] [-1, 1] [4, 1] [1, 1] =
      some (-1, [4, 1], [[1, 1], [1, -1]], [1, 1], [2, 3], [1, -1]) := by
  constructor
  · intro c A Eqin b nat
    exact ⟨primalToDual_one c A Eqin b nat, primalToDual_negOne c A Eqin b nat⟩
  · rfl

/-- C4 counterexample: the expression `"x1x1"` tokenises into two terms whose
sign group is empty, the second at a position after the first, yet
`coefficientsExtractor` does *not* fail: Python's guard is the value comparison
`term != terms[0]`, and the offending term is tuple-equal to the first term, so
the input is accepted with coefficient 1. -/
theorem C4_counterexample_x1x1 :
    findTerms "x1x1".data = [⟨"", "", "x1"⟩, ⟨"", "", "x1"⟩] ∧
    coefficientsExtractor "x1x1" ["x1"] = .ok [1] := by
  exact ⟨rfl, rfl⟩

theorem coeffLoop_nonlinear (clean : String) (t0 : Term) :
    ∀ (ts : List Term) (d : Dict), (∃ t ∈ ts, t.sign = "" ∧ t ≠ t0) →
      ∃ tb : Term, tb.sign = "" ∧ tb ≠ t0 ∧
        coeffLoop clean t0 ts d = .error (.nonLinear clean tb.joined) := by
  intro ts
  induction ts with
  | nil =>
    intro d h
    simp at h
  | cons t ts ih =>
    intro d h
    by_cases hbad : t ≠ t0 ∧ t.sign = ""
    · refine ⟨t, hbad.2, hbad.1, ?_⟩
      simp [coeffLoop, hbad]
    · have hts : ∃ u ∈ ts, u.sign = "" ∧ u ≠ t0 := by
        rcases h with ⟨u, hu, hsgn, hne⟩
        rcases List.mem_cons.mp hu with rfl | hu2
        · exact absurd ⟨hne, hsgn⟩ hbad
        · exact ⟨u, hu2, hsgn, hne⟩
      rcases ih (dictInsert d t.var (termValue t)) hts with ⟨tb, h1, h2, h3⟩
      refine ⟨tb, h1, h2, ?_⟩
      simp [coeffLoop, hbad, h3]

/-- C4 (amended): for every expression whose (whitespace-stripped) term sequence
contains, after the first position, a term with an empty sign group that is
*not tuple-equal to the first term*, `coefficientsExtractor` fails with the
non-linear-expression error naming the cleaned expression and an offending
empty-signed term.  (Terms tuple-equal to the first term escape the check —
see the counterexample `"x1x1"`.)  Input containing `"x1x2<=3"` is covered by
the witness below. -/
theorem C4_nonlinear_rejected (expression : String) (vars : List String)
    (t0 : Term) (rest : List Term)
    (hterms : findTerms (removeSpaces expression) = t0 :: rest)
    (hbad : ∃ t ∈ rest, t.sign = "" ∧ t ≠ t0) :
    ∃ tb : Term, tb.sign = "" ∧ tb ≠ t0 ∧
      coefficientsExtractor expression vars =
        .error (.nonLinear ⟨removeSpaces expression⟩ tb.joined) := by
  have hbad2 : ∃ t ∈ t0 :: rest, t.sign = "" ∧ t ≠ t0 := by
    rcases hbad with ⟨t, ht, h1, h2⟩
    exact ⟨t, List.mem_cons_of_mem _ ht, h1, h2⟩
  rcases coeffLoop_nonlinear ⟨removeSpaces expression⟩ t0 (t0 :: rest)
      (dictInit vars 0) hbad2 with ⟨tb, h1, h2, h3⟩
  refine ⟨tb, h1, h2, ?_⟩
  unfold coefficientsExtractor coeffDict
  simp only [hterms, h3]
  rfl

/-- Witness for C4: the expression `"x1x2"` (the left side of `"x1x2<=3"`)
tokenises with first term `x1` and a later unsigned `x2`, and the extractor
fails with the non-linear error for it; consequently `constraintsExtractor` on
the constraint line `"x1x2<=3"` propagates exactly that error, as does variable
discovery on the raw line. -/
theorem C4_nonlinear_rejected_witness :
    (∃ tb : Term, tb.sign = "" ∧ tb ≠ ⟨"", "", "x1"⟩ ∧
      coefficientsExtractor "x1x2" ["x1", "x2"] =
        .error (.nonLinear "x1x2" tb.joined)) ∧
    (constraintsExtractor ["", "\nx1x2<=3\n"] ["x1", "x2"]).2 =
      .error (.nonLinear "x1x2" "x2") ∧
    discoverVariables ["x1x2<=3"] [] = .error (.nonLinear "x1x2<=3" "x2") := by
  refine ⟨?_, rfl, rfl⟩
  exact C4_nonlinear_rejected "x1x2" ["x1", "x2"] ⟨"", "", "x1"⟩ [⟨"", "", "x2"⟩]
    (by rfl) (by decide)

/-- C5 counterexample: the constraint line `"x1 - x1 <= 5"` is *not* rejected.
Repeated terms for one variable overwrite rather than accumulate, so its parsed
left side is `[-1]`, which is not all-zero, and the row is appended to `A`. -/
theorem C5_counterexample_cancelling_terms :
    coefficientsExtractor "x1 - x1 " ["x1"] = .ok [-1] ∧
    (constraintsExtractor ["", "\nx1 - x1 <= 5\n"] ["x1"]).2 =
      .ok ([[-1]], [-1], [5]) := by
  exact ⟨rfl, rfl⟩

theorem floatParse_error_is_valueError (s : String) (e : PyErr)
    (h : floatParse s = .error e) : e = .valueError := by
  unfold floatParse at h
  split at h
  · simp at h
    exact h.symm
  · split at h
    · simp at h
    · simp at h
      exact h.symm


/-- C5 (amended): for a constraint line with exactly one relational operator
whose left side parses, `processConstraintLine` raises `EmptyLeftSide` exactly
when every entry of the parsed coefficient row is 0 — a check on parsed numeric
values, so `"<=5"` (no variable term) and `"0x1<=5"` (explicit zero) are
rejected; and whenever the line is accepted its row is appended to `A`.  But a
line whose terms would cancel algebraically, such as `"x1 - x1 <= 5"`, is *not*
all-zero under the overwrite semantics (its row parses to `[-1]`) and is
accepted — see the counterexample. -/
theorem C5_emptyLeftSide_iff (vars : List String) (n : Nat) (line : String)
    (st : CState) (r : String) (coeffs : List Int)
    (hrels : findRels line.data = [r])
    (hcoeffs : coefficientsExtractor ⟨(splitRels line.data).headD []⟩ vars = .ok coeffs) :
    (processConstraintLine vars n line st = .error (.emptyLeftSide n) ↔
      coeffs.all (fun x => x = 0) = true) ∧
    (∀ st2 : CState, processConstraintLine vars n line st = .ok st2 →
      st2.A = st.A ++ [coeffs] ∧ coeffs.all (fun x => x = 0) = false) := by
  unfold processConstraintLine
  simp only [hrels, hcoeffs]
  rw [if_neg (by simp)]
  by_cases hz : coeffs.all (fun x => x = 0) = true
  · rw [if_pos hz]
    refine ⟨by simp [hz], fun st2 hok => ?_⟩
    simp at hok
  · rw [if_neg hz]
    refine ⟨⟨fun habs => ?_, fun h => absurd h hz⟩, fun st2 hok => ?_⟩
    · exfalso
      split at habs
      · simp at habs
      · split at habs
        next e2 hfp2 =>
          have he := floatParse_error_is_valueError _ _ hfp2
          subst he
          simp at habs
        next bv hfp2 =>
          simp at habs
    · refine ⟨?_, by simpa using hz⟩
      split at hok
      · simp at hok
      · split at hok
        next e2 hfp2 =>
          simp at hok
        next bv hfp2 =>
          simp only [Except.ok.injEq] at hok
          subst hok
          rfl

/-- Witness for C5 at the accepted line `"x1<=4"` over variables `[x1]`
(relation `<=`, parsed row `[1]`): the `EmptyLeftSide` equivalence is false on
both sides and the row `[1]` is appended to `A`. -/
theorem C5_emptyLeftSide_iff_witness :
    (processConstraintLine ["x1"] 7 "x1<=4" ⟨[], [], []⟩ = .error (.emptyLeftSide 7) ↔
      ([1] : List Int).all (fun x => x = 0) = true) ∧
    (∀ st2 : CState, processConstraintLine ["x1"] 7 "x1<=4" ⟨[], [], []⟩ = .ok st2 →
      st2.A = ([] : List (List Int)) ++ [[1]] ∧
        ([1] : List Int).all (fun x => x = 0) = false) :=
  C5_emptyLeftSide_iff ["x1"] 7 "x1<=4" ⟨[], [], []⟩ "<=" [1] (by rfl) (by rfl)

/-! ### Transpose involution (for C7) -/

theorem getD_map_range {β : Type} (m i : Nat) (f : Nat → β) (d : β) (hi : i < m) :
    ((List.range m).map f).getD i d = f i := by
  rw [List.getD_eq_getElem ((List.range m).map f) d (by simpa using hi)]
  simp

theorem range_map_getD {β : Type} (l : List β) (d : β) :
    (List.range l.length).map (fun i => l.getD i d) = l := by
  induction l with
  | nil => simp
  | cons a t ih =>
    rw [List.length_cons, List.range_succ_eq_map, List.map_cons, List.map_map]
    simp only [List.getD_cons_zero, Function.comp_def, List.getD_cons_succ]
    rw [ih]

theorem getD_map_row (A : List (List Int)) (i j : Nat) :
    (A.map (fun row => row.getD j 0)).getD i 0 = (A.getD i []).getD j 0 := by
  induction A generalizing i with
  | nil => simp
  | cons r t ih =>
    rcases i with _ | i
    · simp
    · simpa using ih i

theorem trL_getD (X : List (List Int)) (i : Nat) (hi : i < (X.headD []).length) :
    (trL X).getD i [] = X.map (fun row => row.getD i 0) := by
  unfold trL
  exact getD_map_range _ _ _ _ hi

theorem trL_trL (A : List (List Int)) (n : Nat) (hn : ∀ r ∈ A, r.length = n)
    (hA : A ≠ []) (hn0 : 0 < n) : trL (trL A) = A := by
  have hhead : (A.headD []).length = n := by
    rcases A with _ | ⟨r0, t⟩
    · exact absurd rfl hA
    · exact hn r0 (by simp)
  have htrLen : ∀ X : List (List Int), (trL X).length = (X.headD []).length := by
    intro X
    simp [trL]
  have hlenTrA : (trL A).length = n := by
    rw [htrLen]
    exact hhead
  have hheadTrA : ((trL A).headD []).length = A.length := by
    have h0 : (trL A).headD [] = (trL A).getD 0 [] := by
      rcases htA : trL A with _ | ⟨c0, cs⟩
      · rw [htA] at hlenTrA
        simp at hlenTrA
        omega
      · simp
    rw [h0, trL_getD A 0 (by rw [hhead]; exact hn0)]
    simp
  have hlen2 : (trL (trL A)).length = A.length := by
    rw [htrLen]
    exact hheadTrA
  apply List.ext_getElem hlen2
  intro i h1 h2
  have e1 : (trL (trL A))[i] = (trL (trL A)).getD i [] :=
    (List.getD_eq_getElem _ _ h1).symm
  have e2 : A[i] = A.getD i [] := (List.getD_eq_getElem _ _ h2).symm
  rw [e1, e2, trL_getD (trL A) i (by rw [hheadTrA]; exact h2)]
  have hrow : (A.getD i []).length = n := by
    rw [List.getD_eq_getElem _ _ h2]
    exact hn _ (List.getElem_mem h2)
  apply List.ext_getElem
  · rw [List.length_map, hlenTrA, hrow]
  · intro j hj1 hj2
    have hj : j < n := by
      rw [List.length_map, hlenTrA] at hj1
      exact hj1
    rw [List.getElem_map]
    have e3 : (trL A)[j] = (trL A).getD j [] :=
      (List.getD_eq_getElem _ _ (by rw [hlenTrA]; exact hj)).symm
    rw [e3, trL_getD A j (by rw [hhead]; exact hj), getD_map_row A i j]
    exact List.getD_eq_getElem _ _ (by rw [hrow]; rw [hrow] at hj2; exact hj2)

theorem negL_negL (l : List Int) : negL (negL l) = l := by
  simp [negL, List.map_map, Function.comp_def]

/-- C7: for a model with an admissible direction and a rectangular, non-empty
constraint matrix, applying `primalToDual` twice returns the original direction,
the original `A` (transpose is an involution on rectangular matrices), the
original `Eqin` and `naturalConstraints` (the relation/natural-constraint swap
with negation, applied twice, is an involution), and the original `c` and `b`. -/
theorem C7_double_dual (MinMax : Int) (c : List Int) (A : List (List Int))
    (Eqin b nat : List Int) (n : Nat)
    (hMM : MinMax = 1 ∨ MinMax = -1)
    (hn : ∀ r ∈ A, r.length = n) (hA : A ≠ []) (hn0 : 0 < n) :
    (primalToDual MinMax c A Eqin b nat).bind primalToDualT =
      some (MinMax, c, A, Eqin, b, nat) := by
  have htr : trL (trL A) = A := trL_trL A n hn hA hn0
  rcases hMM with rfl | rfl
  · rw [primalToDual_one, Option.some_bind]
    show primalToDual (-1) b (trL A) nat c (negL Eqin) = some (1, c, A, Eqin, b, nat)
    rw [primalToDual_negOne, htr, negL_negL]
  · rw [primalToDual_negOne, Option.some_bind]
    show primalToDual 1 b (trL A) (negL nat) c Eqin = some (-1, c, A, Eqin, b, nat)
    rw [primalToDual_one, htr, negL_negL]

/-- Witness for C7 at Example 1's model (m = n = 2). -/
theorem C7_double_dual_witness :
    (primalToDual 1 [2, 3] [[1, 1], [1, -1]] [-1, 1] [4, 1] [1, 1]).bind primalToDualT =
      some (1, [2, 3], [[1, 1], [1, -1]], [-1, 1], [4, 1], [1, 1]) :=
  C7_double_dual 1 [2, 3] [[1, 1], [1, -1]] [-1, 1] [4, 1] [1, 1] 2 (Or.inl rfl)
    (by decide) (by decide) (by decide)

/-! ### Lemmas on the natural-constraint loop (for C8) -/

theorem findNat_single (l : List Char) : findNat l = [] ∨ ∃ g, findNat l = [g] := by
  unfold findNat
  rcases natFirstMatch l with _ | g
  · exact Or.inl rfl
  · exact Or.inr ⟨g, rfl⟩

/-- The success value of one natural-constraint line step does not depend on the
line counter: the counter only appears in error payloads. -/
theorem processNatLine_counter (vars : List String) (a b : Nat) (l : String)
    (d d2 : Dict) (h : processNatLine vars a l d = .ok d2) :
    processNatLine vars b l d = .ok d2 := by
  rcases findNat_single l.data with hf | ⟨g, hf⟩
  · simp [processNatLine, hf] at h
  · simp only [processNatLine, hf] at h ⊢
    rcases hstep : natStep vars g d with e | d3
    · rw [hstep] at h
      exact Except.noConfusion h
    · simp only [hstep] at h ⊢
      rw [if_neg (by simp)] at h
      rw [if_neg (by simp)]
      exact h

/-- The success value of the natural-constraint loop does not depend on the
starting counter. -/
theorem natLoop_counter (vars : List String) :
    ∀ (ls : List String) (a b : Nat) (d v : Dict),
      natLoop vars a ls d = .ok v → natLoop vars b ls d = .ok v := by
  intro ls
  induction ls with
  | nil =>
    intro a b d v h
    simpa [natLoop] using h
  | cons l ls ih =>
    intro a b d v h
    simp only [natLoop] at h ⊢
    rcases hp : processNatLine vars (a + 1) l d with e | d2
    · rw [hp] at h
      exact Except.noConfusion h
    · simp only [hp] at h
      simp only [processNatLine_counter vars (a + 1) (b + 1) l d d2 hp]
      exact ih (a + 1) (b + 1) d2 v h

/-- C8: a syntactically valid natural-constraint line (its pattern matches
exactly once) naming a variable outside the canonical list does not fail and
leaves the extractor's result unchanged: inserting such a line anywhere in the
processed line list of `naturalConstraintsExtractor` preserves any successful
outcome. -/
theorem C8_unknown_variable_ignored (vars : List String) (pre post : List String)
    (l : String) (g : String × String) (startNo : Nat) (d0 v : Dict)
    (hmatch : findNat l.data = [g])
    (hunknown : lowerStr g.1 ∉ vars)
    (hrun : natLoop vars startNo (pre ++ post) d0 = .ok v) :
    natLoop vars startNo (pre ++ l :: post) d0 = .ok v := by
  induction pre generalizing startNo d0 with
  | nil =>
    simp only [List.nil_append] at hrun ⊢
    simp only [natLoop]
    have hstep : processNatLine vars (startNo + 1) l d0 = .ok d0 := by
      have hns : natStep vars g d0 = .ok d0 := by
        simp [natStep, hunknown]
      simp [processNatLine, hmatch, hns]
    simp only [hstep]
    exact natLoop_counter vars post startNo (startNo + 1) d0 v hrun
  | cons p pre ih =>
    simp only [List.cons_append] at hrun ⊢
    simp only [natLoop] at hrun ⊢
    rcases hp : processNatLine vars (startNo + 1) p d0 with e | d2
    · rw [hp] at hrun
      exact Except.noConfusion hrun
    · simp only [hp] at hrun ⊢
      exact ih (startNo + 1) d2 hrun

/-- Witness for C8 on Example 5: inserting the line `"x5 free"` (unknown
variable `x5`) after `"x1 <= 0"` preserves the loop result, and the complete
extractor on the section `"\nx1 <= 0\nx5 free\n"` with canonical variables
`[x1, x2]` yields `[-1, 1]`. -/
theorem C8_unknown_variable_ignored_witness :
    natLoop ["x1", "x2"] 0 ["x1 <= 0", "x5 free"] (dictInit ["x1", "x2"] 1) =
      .ok [("x1", -1), ("x2", 1)] ∧
    (naturalConstraintsExtractor ["", "", "\nx1 <= 0\nx5 free\n"] ["x1", "x2"] true).2 =
      .ok [-1, 1] := by
  constructor
  · exact C8_unknown_variable_ignored ["x1", "x2"] ["x1 <= 0"] [] "x5 free"
      ("x5", "free") 0 (dictInit ["x1", "x2"] 1) [("x1", -1), ("x2", 1)]
      (by rfl) (by decide) (by rfl)
  · rfl

/-! ### Mutation of the shared segment list (C9) -/

/-- C9 counterexample: `constraintsExtractor` is *not* free of effects on its
input list — after the call the segment list differs from the one passed in
(element 1 has been newline-normalised in place). -/
theorem C9_counterexample_mutation :
    (constraintsExtractor ["", "\n\nx1<=4\n"] ["x1"]).1 ≠ ["", "\n\nx1<=4\n"] := by
  decide

/-- C9 (amended): each extractor call returns the segment list unchanged
*except* that the section it parses is replaced in place by its
newline-normalised text: `constraintsExtractor` replaces index 1 with
`mutSection`, `naturalConstraintsExtractor` (with the natural-constraint block
present) replaces index 2, and with no natural-constraint block it leaves the
list untouched; indices the extractor does not parse are never modified. -/
theorem C9_mutation_is_normalisation :
    (∀ (problem : List String) (vars : List String) (s : String),
      problem.get? 1 = some s →
        (constraintsExtractor problem vars).1 = problem.set 1 (mutSection s)) ∧
    (∀ (problem : List String) (vars : List String),
      problem.get? 1 = none → (constraintsExtractor problem vars).1 = problem) ∧
    (∀ (problem : List String) (vars : List String) (s : String),
      problem.get? 2 = some s →
        (naturalConstraintsExtractor problem vars true).1 =
          problem.set 2 (mutSection s)) ∧
    (∀ (problem : List String) (vars : List String),
      problem.get? 2 = none →
        (naturalConstraintsExtractor problem vars true).1 = problem) ∧
    (∀ (problem : List String) (vars : List String),
      (naturalConstraintsExtractor problem vars false).1 = problem) := by
  refine ⟨fun problem vars s h => ?_, fun problem vars h => ?_,
    fun problem vars s h => ?_, fun problem vars h => ?_, fun problem vars => ?_⟩
  · unfold constraintsExtractor
    simp only [h, mutSection]
    rcases hc : collapseNewlines s.data with _ | ⟨c, rest⟩
    · rfl
    · by_cases hcn : c = '\n'
      · simp only [hcn, if_pos, reduceIte]
        split <;> rfl
      · simp only [hcn, if_neg, reduceIte]
        split <;> rfl
  · unfold constraintsExtractor
    simp only [h]
  · unfold naturalConstraintsExtractor
    simp only [h, mutSection, Bool.not_true, Bool.false_eq_true, if_false, reduceIte]
    rcases hc : collapseNewlines s.data with _ | ⟨c, rest⟩
    · rfl
    · by_cases hcn : c = '\n'
      · simp only [hcn, if_pos, reduceIte]
        split <;> rfl
      · simp only [hcn, if_neg, reduceIte]
        split <;> rfl
  · unfold naturalConstraintsExtractor
    simp only [h, Bool.not_true, Bool.false_eq_true, if_false, reduceIte]
  · unfold naturalConstraintsExtractor
    simp

/-- Witness for C9 (amended) at the concrete mutated input. -/
theorem C9_mutation_is_normalisation_witness :
    (["", "\n\nx1<=4\n"] : List String).get? 1 = some "\n\nx1<=4\n" ∧
    (constraintsExtractor ["", "\n\nx1<=4\n"] ["x1"]).1 =
      (["", "\n\nx1<=4\n"] : List String).set 1 (mutSection "\n\nx1<=4\n") :=
  ⟨rfl, C9_mutation_is_normalisation.1 ["", "\n\nx1<=4\n"] ["x1"] "\n\nx1<=4\n" rfl⟩

/-! ### Dictionary keys under the coefficient loop (C10) -/

/-- The variable names a term sequence adds to a dict whose key list is
`present`, in first-occurrence order. -/
def newKeysFrom : List Term → List String → List String
  | [], _ => []
  | t :: ts, present =>
    if t.var ∈ present then newKeysFrom ts present
    else t.var :: newKeysFrom ts (present ++ [t.var])

theorem dictInsert_any_iff (d : Dict) (k : String) :
    (d.any fun p => p.1 = k) = true ↔ k ∈ dictKeys d := by
  rw [List.any_eq_true]
  unfold dictKeys
  rw [List.mem_map]
  constructor
  · rintro ⟨p, hp, he⟩
    exact ⟨p, hp, by simpa using he⟩
  · rintro ⟨p, hp, he⟩
    exact ⟨p, hp, by simpa using he⟩

theorem dictInsert_keys (d : Dict) (k : String) (v : Int) :
    dictKeys (dictInsert d k v) =
      if k ∈ dictKeys d then dictKeys d else dictKeys d ++ [k] := by
  by_cases hk : k ∈ dictKeys d
  · unfold dictInsert
    rw [if_pos ((dictInsert_any_iff d k).mpr hk), if_pos hk]
    unfold dictKeys
    rw [List.map_map]
    apply List.map_congr_left
    intro p hp
    by_cases hpk : p.1 = k
    · simp [hpk]
    · simp [hpk]
  · unfold dictInsert
    rw [if_neg (fun hc => hk ((dictInsert_any_iff d k).mp hc)), if_neg hk]
    unfold dictKeys
    simp

theorem foldl_dictInsert_keys (v : Int) :
    ∀ (keys : List String) (d : Dict), (∀ k ∈ keys, k ∉ dictKeys d) → keys.Nodup →
      dictKeys (keys.foldl (fun d k => dictInsert d k v) d) = dictKeys d ++ keys := by
  intro keys
  induction keys with
  | nil =>
    intro d h hnd
    simp
  | cons k ks ih =>
    intro d h hnd
    have hkfresh : k ∉ dictKeys d := h k (by simp)
    have hfresh : ∀ k2 ∈ ks, k2 ∉ dictKeys (dictInsert d k v) := by
      intro k2 hk2
      rw [dictInsert_keys, if_neg hkfresh]
      simp only [List.mem_append, List.mem_singleton]
      rintro (hc | hc)
      · exact h k2 (by simp [hk2]) hc
      · subst hc
        exact (List.nodup_cons.mp hnd).1 hk2
    rw [List.foldl_cons, ih (dictInsert d k v) hfresh (List.nodup_cons.mp hnd).2,
      dictInsert_keys, if_neg hkfresh]
    simp

theorem dictInit_keys (keys : List String) (v : Int) (hnd : keys.Nodup) :
    dictKeys (dictInit keys v) = keys := by
  unfold dictInit
  have h := foldl_dictInsert_keys v keys [] (by simp [dictKeys]) hnd
  simpa [dictKeys] using h

theorem coeffLoop_keys (clean : String) (t0 : Term) :
    ∀ (ts : List Term) (d d2 : Dict), coeffLoop clean t0 ts d = .ok d2 →
      dictKeys d2 = dictKeys d ++ newKeysFrom ts (dictKeys d) := by
  intro ts
  induction ts with
  | nil =>
    intro d d2 h
    simp only [coeffLoop] at h
    cases h
    simp [newKeysFrom]
  | cons t ts ih =>
    intro d d2 h
    simp only [coeffLoop] at h
    by_cases hbad : t ≠ t0 ∧ t.sign = ""
    · rw [if_pos hbad] at h
      exact Except.noConfusion h
    · rw [if_neg hbad] at h
      have hrec := ih (dictInsert d t.var (termValue t)) d2 h
      rw [hrec, dictInsert_keys]
      by_cases hv : t.var ∈ dictKeys d
      · rw [if_pos hv]
        simp only [newKeysFrom]
        rw [if_pos hv]
      · rw [if_neg hv]
        simp only [newKeysFrom]
        rw [if_neg hv]
        simp

theorem newKeysFrom_nil_of_all_known :
    ∀ (ts : List Term) (present : List String), (∀ t ∈ ts, t.var ∈ present) →
      newKeysFrom ts present = [] := by
  intro ts
  induction ts with
  | nil =>
    intro present h
    rfl
  | cons t ts ih =>
    intro present h
    simp only [newKeysFrom]
    rw [if_pos (h t (by simp))]
    exact ih present (fun u hu => h u (by simp [hu]))

theorem newKeysFrom_ne_nil_of_unknown :
    ∀ (ts : List Term) (present : List String), (∃ t ∈ ts, t.var ∉ present) →
      newKeysFrom ts present ≠ [] := by
  intro ts
  induction ts with
  | nil =>
    intro present h
    simp at h
  | cons t ts ih =>
    intro present h
    simp only [newKeysFrom]
    by_cases hv : t.var ∈ present
    · rw [if_pos hv]
      apply ih present
      rcases h with ⟨u, hu, hnot⟩
      rcases List.mem_cons.mp hu with rfl | hu2
      · exact absurd hv hnot
      · exact ⟨u, hu2, hnot⟩
    · rw [if_neg hv]
      simp

/-- C10: on success with a duplicate-free canonical variable list, the dict
built by `coefficientsExtractor` has exactly the canonical keys followed by the
referenced unknown variables in first-occurrence order; hence the returned
value list has length `|vars| + #unknowns` — equal to `|vars|` exactly when
every referenced variable is canonical, and strictly greater as soon as an
unknown variable is referenced. -/
theorem C10_unknown_variables_appended (expression : String) (vars : List String)
    (res : List Int) (hnd : vars.Nodup)
    (hok : coefficientsExtractor expression vars = .ok res) :
    ∃ d : Dict, coeffDict expression vars = .ok d ∧ res = dictValues d ∧
      dictKeys d = vars ++ newKeysFrom (findTerms (removeSpaces expression)) vars ∧
      res.length =
        vars.length + (newKeysFrom (findTerms (removeSpaces expression)) vars).length ∧
      ((∀ t ∈ findTerms (removeSpaces expression), t.var ∈ vars) →
        res.length = vars.length) ∧
      ((∃ t ∈ findTerms (removeSpaces expression), t.var ∉ vars) →
        vars.length < res.length) := by
  unfold coefficientsExtractor at hok
  rcases hcd : coeffDict expression vars with e | d
  · rw [hcd] at hok
    exact Except.noConfusion hok
  · rw [hcd] at hok
    have hres : res = dictValues d := by
      simpa [Except.map] using hok.symm
    have hkeys : dictKeys d = vars ++ newKeysFrom (findTerms (removeSpaces expression)) vars := by
      unfold coeffDict at hcd
      rcases hts : findTerms (removeSpaces expression) with _ | ⟨t0, rest⟩
      · simp only [hts] at hcd
        cases hcd
        rw [dictInit_keys vars 0 hnd]
        simp [newKeysFrom]
      · simp only [hts] at hcd
        have h2 := coeffLoop_keys ⟨removeSpaces expression⟩ t0 (t0 :: rest)
          (dictInit vars 0) d hcd
        rw [h2, dictInit_keys vars 0 hnd]
    have hlen : res.length =
        vars.length + (newKeysFrom (findTerms (removeSpaces expression)) vars).length := by
      rw [hres]
      unfold dictValues
      rw [List.length_map]
      have : d.length = (dictKeys d).length := by
        unfold dictKeys
        rw [List.length_map]
      rw [this, hkeys, List.length_append]
    refine ⟨d, rfl, hres, hkeys, hlen, fun hall => ?_, fun hex => ?_⟩
    · rw [hlen, newKeysFrom_nil_of_all_known _ vars hall]
      simp
    · rw [hlen]
      have hne := newKeysFrom_ne_nil_of_unknown _ vars hex
      have : 0 < (newKeysFrom (findTerms (removeSpaces expression)) vars).length :=
        List.length_pos.mpr hne
      omega

/-- Witness for C10: `"2x1+3x9"` over canonical variables `[x1, x2]` references
the unknown `x9`; the dict keys are `[x1, x2, x9]` and the result `[2, 0, 3]`
has length 3 > 2. -/
theorem C10_unknown_variables_appended_witness :
    ∃ d : Dict, coeffDict "2x1+3x9" ["x1", "x2"] = .ok d ∧
      ([2, 0, 3] : List Int) = dictValues d ∧
      dictKeys d = ["x1", "x2"] ++ newKeysFrom (findTerms (removeSpaces "2x1+3x9")) ["x1", "x2"] ∧
      ([2, 0, 3] : List Int).length =
        (["x1", "x2"] : List String).length +
          (newKeysFrom (findTerms (removeSpaces "2x1+3x9")) ["x1", "x2"]).length ∧
      ((∀ t ∈ findTerms (removeSpaces "2x1+3x9"), t.var ∈ (["x1", "x2"] : List String)) →
        ([2, 0, 3] : List Int).length = (["x1", "x2"] : List String).length) ∧
      ((∃ t ∈ findTerms (removeSpaces "2x1+3x9"), t.var ∉ (["x1", "x2"] : List String)) →
        (["x1", "x2"] : List String).length < ([2, 0, 3] : List Int).length) :=
  C10_unknown_variables_appended "2x1+3x9" ["x1", "x2"] [2, 0, 3] (by decide) (by rfl)

end LPP
